import Mathlib

/-!
Verification of the `reliability` package (src/reliability/reliability.py)
against its natural-language specification.

The embedding models:
* `test_retest` over `ℚ` (the Fisher and Harris intraclass-correlation
  formulas are pure field arithmetic);
* `split_half` over `ℝ` (the Pearson coefficient and the standard
  deviation need `Real.sqrt`), with the per-trial `numpy.random.shuffle`
  of the label matrix modelled as an arbitrary stream of row
  permutations, and the `x[halves==1]` boolean-mask flattening plus
  `numpy.reshape` modelled faithfully (row-major flatten, length-checked
  reshape).

Division by zero follows Lean's convention `a / 0 = 0`; fallible steps
(`reshape` with a mismatched length, Python's fall-through `return r`
with an unbound `r`) are modelled with `Option` / `Except`.
-/

namespace Reliability

/-! ### test_retest (reliability.py, lines 95-143), over ℚ -/

/-- Pooled mean of the Harris branch:
`m = numpy.sum(numpy.sum(x, axis=0)) / (n_measurements*n_subjects)`.
`numpy.sum(x, axis=0)` is the vector of per-column (per-subject) sums. -/
def pooledMean {M N : ℕ} (x : Fin M → Fin N → ℚ) : ℚ :=
  (∑ c : Fin N, ∑ r : Fin M, x r c) / (M * N)

/-- Pooled variance of the Harris branch:
`var = numpy.sum(numpy.sum((x - m)**2, axis=0)) / (n_measurements * n_subjects)`. -/
def pooledVar {M N : ℕ} (x : Fin M → Fin N → ℚ) : ℚ :=
  (∑ c : Fin N, ∑ r : Fin M, (x r c - pooledMean x) ^ 2) / (M * N)

/-- The Harris branch of `test_retest` (lines 131-141). -/
def harrisR {M N : ℕ} (x : Fin M → Fin N → ℚ) : ℚ :=
  let m := pooledMean x
  let var := pooledVar x
  let a : ℚ := (M : ℚ) / ((M : ℚ) - 1)
  let b : ℚ := (∑ c : Fin N, ((∑ r : Fin M, x r c) / (M : ℚ) - m) ^ 2) / (N : ℚ)
  let c : ℚ := 1 / ((M : ℚ) - 1)
  a * (b / var) - c

/-- The Fisher branch of `test_retest` (lines 121-128), on the two rows
`x[0,:]` and `x[1,:]`. -/
def fisherR {N : ℕ} (x0 x1 : Fin N → ℚ) : ℚ :=
  let m : ℚ := (∑ c : Fin N, (x0 c + x1 c)) / (2 * N)
  let var : ℚ := ((∑ c : Fin N, (x0 c - m) ^ 2) + (∑ c : Fin N, (x1 c - m) ^ 2)) / (2 * N)
  (∑ c : Fin N, (x0 c - m) * (x1 c - m)) / (N * var)

/-- Model of `test_retest(x, mode)`.  The Python function takes the `fisher` branch
only when `mode == 'fisher' and n_measurements == 2`, the `harris` branch
when `mode == 'harris'`, and otherwise assigns nothing and reaches
`return r` with `r` unbound; the last case is modelled as `none`. -/
def test_retest {M N : ℕ} (x : Fin M → Fin N → ℚ) (mode : String) : Option ℚ :=
  if h : mode = "fisher" ∧ M = 2 then
    some (fisherR (fun c => x (Fin.cast h.2.symm 0) c) (fun c => x (Fin.cast h.2.symm 1) c))
  else if mode = "harris" then
    some (harrisR x)
  else
    none

/-- The Harris formula exactly as the specification words it: `m` is the
sum of all M*N entries over M*N, `var` the sum of squared deviations of
all entries from `m` over M*N, `b` the sum over subjects of
`(subject_mean - m)^2` over N, where `subject_mean` is the mean of that
subject's M measurements, and the result is `a * (b / var) - c`. -/
def harrisSpec {M N : ℕ} (x : Fin M → Fin N → ℚ) : ℚ :=
  let m : ℚ := (∑ p : Fin M × Fin N, x p.1 p.2) / (M * N)
  let var : ℚ := (∑ p : Fin M × Fin N, (x p.1 p.2 - m) ^ 2) / (M * N)
  let a : ℚ := (M : ℚ) / ((M : ℚ) - 1)
  let subjectMean : Fin N → ℚ := fun c => (∑ r : Fin M, x r c) / (M : ℚ)
  let b : ℚ := (∑ c : Fin N, (subjectMean c - m) ^ 2) / (N : ℚ)
  let c : ℚ := 1 / ((M : ℚ) - 1)
  a * (b / var) - c

lemma sum_prod_swap {M N : ℕ} (g : Fin M × Fin N → ℚ) :
    (∑ p : Fin M × Fin N, g p) = ∑ c : Fin N, ∑ r : Fin M, g (r, c) := by
  rw [Fintype.sum_prod_type]
  exact Finset.sum_comm

/-- Claim C1: for every matrix with M ≥ 2 rows and N ≥ 1 columns,
`test_retest(X, mode='harris')` returns `a * (b / var) - c` with the
quantities defined exactly as the specification states them. -/
theorem c1_harris_formula {M N : ℕ} (x : Fin M → Fin N → ℚ)
    (hM : 2 ≤ M) (hN : 1 ≤ N) :
    test_retest x "harris" = some (harrisSpec x) := by
  have hmode : ¬ (("harris" : String) = "fisher" ∧ M = 2) := by
    intro h
    exact absurd h.1 (by decide)
  rw [test_retest, dif_neg hmode, if_pos rfl]
  congr 1
  simp only [harrisSpec, harrisR, pooledMean, pooledVar, sum_prod_swap]

/-- Witness for C1 at the concrete matrix `[[1, 3], [2, 5]]`. -/
theorem c1_harris_formula_witness :
    2 ≤ 2 ∧ 1 ≤ 2 ∧
      test_retest (![![(1 : ℚ), 3], ![2, 5]]) "harris" =
        some (harrisSpec (![![(1 : ℚ), 3], ![2, 5]])) :=
  ⟨by norm_num, by norm_num,
    c1_harris_formula (![![(1 : ℚ), 3], ![2, 5]]) (by norm_num) (by norm_num)⟩

/-- Claim C6: `test_retest` performs no validation of `mode`: with a mode
outside {fisher, harris}, or with `mode='fisher'` on a matrix whose row
count is not 2, it raises nothing and produces no defined result
(modelled as `none`). -/
theorem c6_no_mode_validation {M N : ℕ} (x : Fin M → Fin N → ℚ) (mode : String)
    (h : (mode ≠ "fisher" ∧ mode ≠ "harris") ∨ (mode = "fisher" ∧ M ≠ 2)) :
    test_retest x mode = none := by
  rcases h with ⟨h1, h2⟩ | ⟨h1, h2⟩
  · rw [test_retest, dif_neg (fun hc => h1 hc.1), if_neg h2]
  · rw [test_retest, dif_neg (fun hc => h2 hc.2), if_neg (by rw [h1]; decide)]

/-- Witness for C6: the unrecognized mode `'bogus'` and the Fisher mode on
a 3-row matrix both fall through. -/
theorem c6_no_mode_validation_witness :
    test_retest (![![(1 : ℚ), 3], ![2, 5]]) "bogus" = none ∧
      test_retest (![![(1 : ℚ), 3], ![2, 5], ![4, 7]]) "fisher" = none :=
  ⟨c6_no_mode_validation (![![(1 : ℚ), 3], ![2, 5]]) "bogus"
      (Or.inl ⟨by decide, by decide⟩),
    c6_no_mode_validation (![![(1 : ℚ), 3], ![2, 5], ![4, 7]]) "fisher"
      (Or.inr ⟨rfl, by decide⟩)⟩

/-- Claim C7: on every 2×N matrix with nonzero pooled variance the Harris
mode agrees exactly with the Fisher mode (Harris's intraclass-correlation
formula generalizes Fisher's two-measurement formula). -/
theorem c7_harris_eq_fisher {N : ℕ} (x : Fin 2 → Fin N → ℚ) (hN : 1 ≤ N)
    (hvar : pooledVar x ≠ 0) :
    test_retest x "harris" = test_retest x "fisher" := by
  have hf : test_retest x "fisher" = some (fisherR (fun c => x 0 c) (fun c => x 1 c)) := by
    rw [test_retest, dif_pos ⟨rfl, rfl⟩]
    rfl
  have hh : test_retest x "harris" = some (harrisR x) := by
    have hmode : ¬ (("harris" : String) = "fisher" ∧ (2 : ℕ) = 2) := fun h =>
      absurd h.1 (by decide)
    rw [test_retest, dif_neg hmode, if_pos rfl]
  rw [hf, hh]
  congr 1
  simp only [harrisR, fisherR, pooledVar, pooledMean, Fin.sum_univ_two] at hvar ⊢
  push_cast at hvar ⊢
  set m : ℚ := (∑ c : Fin N, (x 0 c + x 1 c)) / (2 * N) with hm
  have e : ∀ c : Fin N, ((x 0 c + x 1 c) / 2 - m) ^ 2
      = ((x 0 c - m) ^ 2 + (x 1 c - m) ^ 2 + 2 * ((x 0 c - m) * (x 1 c - m))) / 4 :=
    fun c => by ring
  simp only [e]
  simp only [← Finset.sum_div, Finset.sum_add_distrib, ← Finset.mul_sum] at hvar ⊢
  set S0 : ℚ := ∑ c : Fin N, (x 0 c - m) ^ 2 with hS0
  set S1 : ℚ := ∑ c : Fin N, (x 1 c - m) ^ 2 with hS1
  set P : ℚ := ∑ c : Fin N, (x 0 c - m) * (x 1 c - m) with hP
  have hN0 : (N : ℚ) ≠ 0 := Nat.cast_ne_zero.mpr (by omega)
  have hS : S0 + S1 ≠ 0 := by
    intro h0
    apply hvar
    rw [h0, zero_div]
  field_simp
  ring

/-- Witness for C7 at the specification's literal dataset
X = [[10,12,14],[11,13,16]]. -/
theorem c7_harris_eq_fisher_witness :
    1 ≤ 3 ∧ pooledVar (![![(10 : ℚ), 12, 14], ![11, 13, 16]]) ≠ 0 ∧
      test_retest (![![(10 : ℚ), 12, 14], ![11, 13, 16]]) "harris" =
        test_retest (![![(10 : ℚ), 12, 14], ![11, 13, 16]]) "fisher" := by
  have hv : pooledVar (![![(10 : ℚ), 12, 14], ![11, 13, 16]]) ≠ 0 := by
    norm_num [pooledVar, pooledMean, Fin.sum_univ_two, Fin.sum_univ_three]
  exact ⟨by norm_num, hv,
    c7_harris_eq_fisher (![![(10 : ℚ), 12, 14], ![11, 13, 16]]) (by norm_num) hv⟩

/-! ### split_half (reliability.py, lines 5-91), over ℝ -/

/-- The label matrix `halves` as initialized (lines 59-61): a full (M, N)
integer matrix of ones whose rows from `n_half_1 = M // 2` on are set
to 2. -/
def initHalves (M N : ℕ) : Fin M → Fin N → ℕ :=
  fun r _ => if (r : ℕ) < M / 2 then 1 else 2

/-- Shuffling: `numpy.random.shuffle(halves)` permutes the rows of the label matrix
in place; one trial's shuffle outcome is an arbitrary row permutation. -/
def applyPerm {M N : ℕ} (σ : Equiv.Perm (Fin M)) (h : Fin M → Fin N → ℕ) :
    Fin M → Fin N → ℕ :=
  fun r c => h (σ r) c

/-- The rows currently carrying label `v`, in their current order. -/
def rowsWith {M N : ℕ} (h : Fin M → Fin N → ℕ) (v : ℕ) : List (Fin M) :=
  (List.finRange M).filter fun r => decide (∀ c, h r c = v)

/-- The label-matrix invariant of the specification: every row carries one
label on all subject columns, exactly `M // 2` rows carry label 1, and
every entry is 1 or 2. -/
def Invariant {M N : ℕ} (h : Fin M → Fin N → ℕ) : Prop :=
  (∀ r c c2, h r c = h r c2) ∧ (rowsWith h 1).length = M / 2 ∧
    ∀ r c, h r c = 1 ∨ h r c = 2

instance invariantDecidable {M N : ℕ} (h : Fin M → Fin N → ℕ) :
    Decidable (Invariant h) := by
  unfold Invariant
  infer_instance

noncomputable section

/-- Mask selection `x[halves==v]`: the entries of `x` at positions whose label is `v`,
flattened in row-major order. -/
def maskSelect {M N : ℕ} (x : Fin M → Fin N → ℝ) (h : Fin M → Fin N → ℕ)
    (v : ℕ) : List ℝ :=
  (List.finRange M).flatMap fun r =>
    (List.finRange N).filterMap fun c => if h r c = v then some (x r c) else none

/-- Reshape `numpy.reshape(l, (p, q))` viewed as an entry accessor: entry (i, j)
is element `i*q + j` of the flat list (row-major order). -/
def matOfList (l : List ℝ) (q : ℕ) : ℕ → ℕ → ℝ :=
  fun i j => l.getD (i * q + j) 0

/-- Model of `scipy.stats.pearsonr`: the Pearson product-moment correlation
coefficient of two length-n vectors.  On a zero-variance input this
value is 0 by Lean's `a / 0 = 0`, where the float code returns NaN; the
NaN path is kept by `pearsonChecked` below. -/
def pearson {n : ℕ} (a b : Fin n → ℝ) : ℝ :=
  let am := (∑ i, a i) / n
  let bm := (∑ i, b i) / n
  (∑ i, (a i - am) * (b i - bm)) /
    Real.sqrt ((∑ i, (a i - am) ^ 2) * (∑ i, (b i - bm) ^ 2))

/-- The Pearson coefficient computed by one trial (lines 71-79): group the
rows by label, reshape to `(group size, n_subjects)`, average each group
per subject with `numpy.mean(·, axis=0)`, and correlate the two length-N
mean vectors. -/
def trialPearson {M N : ℕ} (x : Fin M → Fin N → ℝ) (h : Fin M → Fin N → ℕ) : ℝ :=
  let x1 := matOfList (maskSelect x h 1) N
  let x2 := matOfList (maskSelect x h 2) N
  let m1 : Fin N → ℝ := fun c => (∑ r : Fin (M / 2), x1 r c) / ((M / 2 : ℕ) : ℝ)
  let m2 : Fin N → ℝ :=
    fun c => (∑ r : Fin (M - M / 2), x2 r c) / ((M - M / 2 : ℕ) : ℝ)
  pearson m1 m2

/-- One trial of the loop body (lines 71-84).  `numpy.reshape` raises
unless the flat mask selections have exactly `n_half_1 * n_subjects` and
`n_half_2 * n_subjects` entries (`none` here).  The stored sample is the
raw coefficient under `'correlation'`, the Spearman-Brown-corrected
`2*r/(1+r)` under `'spearman-brown'`, and otherwise the `if`/`elif`
leaves the preinitialized `0.0` in `r_[i]`.  At `r = -1` the stored
value is 0 by Lean's `a / 0 = 0`, where the float code produces -inf;
the non-finite path is kept by `trialSampleChecked` below. -/
def trialSample {M N : ℕ} (x : Fin M → Fin N → ℝ) (mode : String)
    (h : Fin M → Fin N → ℕ) : Option ℝ :=
  if (maskSelect x h 1).length = M / 2 * N ∧
      (maskSelect x h 2).length = (M - M / 2) * N then
    some (if mode = "correlation" then trialPearson x h
      else if mode = "spearman-brown" then
        2 * trialPearson x h / (1 + trialPearson x h)
      else 0)
  else none

/-- The trial loop (lines 64-84): shuffle the label matrix, then sample;
the shuffles accumulate in `halves` across trials. -/
def runTrials {M N : ℕ} (x : Fin M → Fin N → ℝ) (mode : String)
    (perms : ℕ → Equiv.Perm (Fin M)) :
    ℕ → ℕ → (Fin M → Fin N → ℕ) → List (Option ℝ)
  | 0, _, _ => []
  | k + 1, i, h =>
    let h2 := applyPerm (perms i) h
    trialSample x mode h2 :: runTrials x mode perms k (i + 1) h2

/-- Model of `numpy.mean` of a flat array. -/
def listMean (l : List ℝ) : ℝ := l.sum / l.length

/-- Model of `numpy.std` of a flat array: the population standard deviation,
`sqrt(mean((v - mean)^2))`, divisor = length. -/
def listPStd (l : List ℝ) : ℝ :=
  Real.sqrt ((l.map fun v => (v - listMean l) ^ 2).sum / l.length)

/-- The trial samples of a call, as real numbers. -/
def sampleVals {M N : ℕ} (x : Fin M → Fin N → ℝ) (mode : String)
    (perms : ℕ → Equiv.Perm (Fin M)) (k : ℕ) : List ℝ :=
  (runTrials x mode perms k 0 (initHalves M N)).reduceOption

/-- Model of `split_half(x, n_splits, mode)` (lines 5-91), with the random source
made explicit as a stream of row permutations.  Validation raises (here
`Except.error`) before the loop; afterwards `r = numpy.mean(r_)` and
`sem = numpy.std(r_) / numpy.sqrt(n_splits)`. -/
def split_half {M N : ℕ} (x : Fin M → Fin N → ℝ) (n_splits : ℤ) (mode : String)
    (perms : ℕ → Equiv.Perm (Fin M)) : Except String (ℝ × ℝ) :=
  if n_splits < 1 then
    Except.error "Expected n_splits to be 1 or more."
  else if ¬ (mode = "correlation" ∨ mode = "spearman-brown") then
    Except.error "Mode not supported."
  else
    let k := n_splits.toNat
    let samples := runTrials x mode perms k 0 (initHalves M N)
    if samples.all Option.isSome then
      Except.ok (listMean samples.reduceOption,
        listPStd samples.reduceOption / Real.sqrt k)
    else
      Except.error "cannot reshape array"

/-- Per-subject means over the rows of the group with label `v`, as the
specification words them. -/
def groupMeans {M N : ℕ} (x : Fin M → Fin N → ℝ) (h : Fin M → Fin N → ℕ)
    (v : ℕ) : Fin N → ℝ :=
  fun c => ((rowsWith h v).map fun r => x r c).sum / ((rowsWith h v).length : ℝ)

/-!
The definitions above collapse the degenerate float paths through Lean's
`a / 0 = 0` convention: `scipy.stats.pearsonr` returns NaN on a
zero-variance input, and `2.0 * pearson_r / (1.0 + pearson_r)` is -inf at
`pearson_r = -1`; a non-finite sample then poisons `numpy.mean` and
`numpy.std` (the latter to NaN).  The checked variants below keep those
paths: `none` stands for a non-finite float (NaN or ±inf).
-/

/-- Model of `scipy.stats.pearsonr` keeping the degenerate path: when
either vector has zero variance the float result is NaN, modelled as
`none`; otherwise the finite coefficient. -/
def pearsonChecked {n : ℕ} (a b : Fin n → ℝ) : Option ℝ :=
  let am := (∑ i, a i) / n
  let bm := (∑ i, b i) / n
  if (∑ i, (a i - am) ^ 2) * (∑ i, (b i - bm) ^ 2) = 0 then none
  else some (pearson a b)

/-- The trial coefficient of lines 71-79 with the NaN path kept. -/
def trialPearsonChecked {M N : ℕ} (x : Fin M → Fin N → ℝ)
    (h : Fin M → Fin N → ℕ) : Option ℝ :=
  let x1 := matOfList (maskSelect x h 1) N
  let x2 := matOfList (maskSelect x h 2) N
  let m1 : Fin N → ℝ := fun c => (∑ r : Fin (M / 2), x1 r c) / ((M / 2 : ℕ) : ℝ)
  let m2 : Fin N → ℝ :=
    fun c => (∑ r : Fin (M - M / 2), x2 r c) / ((M - M / 2 : ℕ) : ℝ)
  pearsonChecked m1 m2

/-- The Spearman-Brown correction of line 84 with the non-finite paths
kept: a NaN input propagates, and at `r = -1` the float division
`2*r/(1+r)` produces -inf (`none`). -/
def sbChecked (r : Option ℝ) : Option ℝ :=
  match r with
  | none => none
  | some rv => if 1 + rv = 0 then none else some (2 * rv / (1 + rv))

/-- One trial of the loop body with the non-finite paths kept.  The outer
`Option` is the `numpy.reshape` length check; the inner one is
finiteness of the stored float. -/
def trialSampleChecked {M N : ℕ} (x : Fin M → Fin N → ℝ) (mode : String)
    (h : Fin M → Fin N → ℕ) : Option (Option ℝ) :=
  if (maskSelect x h 1).length = M / 2 * N ∧
      (maskSelect x h 2).length = (M - M / 2) * N then
    some (if mode = "correlation" then trialPearsonChecked x h
      else if mode = "spearman-brown" then sbChecked (trialPearsonChecked x h)
      else some 0)
  else none

/-- The trial loop with the non-finite paths kept. -/
def runTrialsChecked {M N : ℕ} (x : Fin M → Fin N → ℝ) (mode : String)
    (perms : ℕ → Equiv.Perm (Fin M)) :
    ℕ → ℕ → (Fin M → Fin N → ℕ) → List (Option (Option ℝ))
  | 0, _, _ => []
  | k + 1, i, h =>
    let h2 := applyPerm (perms i) h
    trialSampleChecked x mode h2 :: runTrialsChecked x mode perms k (i + 1) h2

/-- The finite trial samples of a call of the checked pipeline. -/
def checkedVals {M N : ℕ} (x : Fin M → Fin N → ℝ) (mode : String)
    (perms : ℕ → Equiv.Perm (Fin M)) (k : ℕ) : List ℝ :=
  ((runTrialsChecked x mode perms k 0 (initHalves M N)).reduceOption).reduceOption

/-- Model of `split_half` keeping the non-finite float paths: if any
trial stores a non-finite sample, `numpy.mean(r_)` and `numpy.std(r_)`
are not finite either (`numpy.std` is NaN as soon as one sample is NaN
or ±inf), modelled as the pair `(none, none)`. -/
def splitHalfChecked {M N : ℕ} (x : Fin M → Fin N → ℝ) (n_splits : ℤ)
    (mode : String) (perms : ℕ → Equiv.Perm (Fin M)) :
    Except String (Option ℝ × Option ℝ) :=
  if n_splits < 1 then
    Except.error "Expected n_splits to be 1 or more."
  else if ¬ (mode = "correlation" ∨ mode = "spearman-brown") then
    Except.error "Mode not supported."
  else
    let k := n_splits.toNat
    let samples := runTrialsChecked x mode perms k 0 (initHalves M N)
    if samples.all Option.isSome then
      let vals := samples.reduceOption
      if vals.all Option.isSome then
        Except.ok (some (listMean vals.reduceOption),
          some (listPStd vals.reduceOption / Real.sqrt k))
      else
        Except.ok (none, none)
    else
      Except.error "cannot reshape array"

/-- A valid all-zero 2×2 dataset: both half-mean vectors are constant, so
`scipy.stats.pearsonr` returns NaN on it. -/
def xConst : Fin 2 → Fin 2 → ℝ := fun _ _ => 0

end

/-! ### List and counting lemmas for the mask/reshape machinery -/

lemma flatMap_of_filter {α β : Type} (p : α → Bool) (g : α → List β)
    (hg : ∀ a, p a = false → g a = []) :
    ∀ l : List α, l.flatMap g = (l.filter p).flatMap g := by
  intro l
  induction l with
  | nil => rfl
  | cons a l ih =>
    rw [List.flatMap_cons, List.filter_cons]
    by_cases hp : p a
    · rw [if_pos hp, List.flatMap_cons, ih]
    · rw [if_neg hp, hg a (by simpa using hp), List.nil_append, ih]

lemma maskSelect_eq_rows {M N : ℕ} (x : Fin M → Fin N → ℝ)
    (h : Fin M → Fin N → ℕ) (v : ℕ) (hc : ∀ r c c2, h r c = h r c2) :
    maskSelect x h v =
      (rowsWith h v).flatMap fun r => (List.finRange N).map fun c => x r c := by
  rw [maskSelect, rowsWith,
    flatMap_of_filter (fun r => decide (∀ c, h r c = v)) _ ?hg (List.finRange M)]
  case hg =>
    intro r hr
    rw [List.filterMap_eq_nil]
    intro c _
    rw [if_neg]
    intro hv
    have hall : ∀ c2, h r c2 = v := fun c2 => (hc r c2 c).trans hv
    simp [hall] at hr
  apply List.flatMap_congr
  intro r hr
  have hall : ∀ c, h r c = v := by simpa using (List.mem_filter.mp hr).2
  have : ∀ c ∈ List.finRange N,
      (if h r c = v then some (x r c) else none) = some (x r c) :=
    fun c _ => if_pos (hall c)
  rw [List.filterMap_congr this]
  exact congrFun (List.filterMap_eq_map fun c => x r c) (List.finRange N)

lemma length_flatMap_rowChunks {M N : ℕ} (x : Fin M → Fin N → ℝ)
    (rows : List (Fin M)) :
    (rows.flatMap fun r => (List.finRange N).map fun c => x r c).length
      = rows.length * N := by
  induction rows with
  | nil => simp
  | cons r rows ih =>
    rw [List.flatMap_cons, List.length_append, List.length_map,
      List.length_finRange, ih, List.length_cons, Nat.succ_mul]
    omega

lemma matOfList_flatMap {M N : ℕ} (x : Fin M → Fin N → ℝ) :
    ∀ (rows : List (Fin M)) (i j : ℕ) (hi : i < rows.length) (hj : j < N),
      matOfList (rows.flatMap fun r => (List.finRange N).map fun c => x r c) N i j
        = x (rows.get ⟨i, hi⟩) ⟨j, hj⟩ := by
  intro rows
  induction rows with
  | nil => intro i j hi hj; simp at hi
  | cons r rows ih =>
    intro i j hi hj
    match i with
    | 0 =>
      have hjlen : (0 : ℕ) * N + j < ((List.finRange N).map fun c => x r c).length := by
        rw [List.length_map, List.length_finRange]; omega
      rw [matOfList, List.flatMap_cons, List.getD_append _ _ _ _ hjlen,
        List.getD_eq_getElem _ _ hjlen]
      simp [List.getElem_finRange]
    | i + 1 =>
      have hlen : ((List.finRange N).map fun c => x r c).length ≤ (i + 1) * N + j := by
        rw [List.length_map, List.length_finRange]
        calc N ≤ (i + 1) * N := Nat.le_mul_of_pos_left N (by omega)
        _ ≤ (i + 1) * N + j := by omega
      rw [matOfList, List.flatMap_cons, List.getD_append_right _ _ _ _ hlen]
      have hidx : (i + 1) * N + j - ((List.finRange N).map fun c => x r c).length
          = i * N + j := by
        rw [List.length_map, List.length_finRange]
        have : (i + 1) * N = i * N + N := by ring
        omega
      rw [hidx]
      exact ih i j (by simpa using hi) hj

lemma sum_map_eq_fin_sum {α : Type} (l : List α) (f : α → ℝ) :
    (l.map f).sum = ∑ i : Fin l.length, f (l.get i) := by
  conv_lhs => rw [← List.finRange_map_get l, List.map_map]
  rw [← List.ofFn_eq_map, List.sum_ofFn]
  rfl

lemma countP_range_lt : ∀ n k : ℕ, k ≤ n →
    ((List.range n).countP fun v => decide (v < k)) = k := by
  intro n
  induction n with
  | zero =>
    intro k hk
    have hk0 : k = 0 := by omega
    subst hk0
    rfl
  | succ n ih =>
    intro k hk
    rw [List.range_succ, List.countP_append]
    by_cases hkn : k ≤ n
    · rw [ih k hkn]
      have : ¬ n < k := by omega
      simp [this]
    · have hk1 : k = n + 1 := by omega
      subst hk1
      have hall : ((List.range n).countP fun v => decide (v < n + 1))
          = (List.range n).length := by
        rw [List.countP_eq_length]
        intro a ha
        simp only [List.mem_range] at ha
        simp only [decide_eq_true_eq]
        omega
      rw [hall, List.length_range]
      simp [List.countP_cons, Nat.lt_succ_self]

lemma countP_comp_perm {M : ℕ} (p : Fin M → Bool) (σ : Equiv.Perm (Fin M)) :
    ((List.finRange M).countP fun r => p (σ r)) = (List.finRange M).countP p := by
  have hperm : ((List.finRange M).map σ).Perm (List.finRange M) := by
    apply List.perm_of_nodup_nodup_toFinset_eq
    · exact (List.nodup_finRange M).map σ.injective
    · exact List.nodup_finRange M
    · apply Finset.ext
      intro a
      simp only [List.mem_toFinset, List.mem_map, List.mem_finRange, true_and,
        iff_true]
      exact ⟨σ.symm a, σ.apply_symm_apply a⟩
  calc ((List.finRange M).countP fun r => p (σ r))
      = ((List.finRange M).map σ).countP p := (List.countP_map p σ _).symm
    _ = (List.finRange M).countP p := hperm.countP_eq p

lemma rowsWith_applyPerm_length {M N : ℕ} (σ : Equiv.Perm (Fin M))
    (h : Fin M → Fin N → ℕ) (v : ℕ) :
    (rowsWith (applyPerm σ h) v).length = (rowsWith h v).length := by
  rw [rowsWith, rowsWith, ← List.countP_eq_length_filter,
    ← List.countP_eq_length_filter]
  exact countP_comp_perm (fun r => decide (∀ c, h r c = v)) σ

lemma rowsWith_initHalves (M N : ℕ) (hN : 0 < N) :
    (rowsWith (initHalves M N) 1).length = M / 2 := by
  rw [rowsWith, ← List.countP_eq_length_filter]
  have hp : (fun r : Fin M => decide (∀ c : Fin N, initHalves M N r c = 1))
      = fun r : Fin M => decide ((r : ℕ) < M / 2) := by
    funext r
    rw [decide_eq_decide]
    constructor
    · intro ha
      have := ha ⟨0, hN⟩
      rw [initHalves] at this
      by_contra hlt
      rw [if_neg hlt] at this
      omega
    · intro hlt c
      rw [initHalves, if_pos hlt]
  rw [hp]
  have hcast : ((List.finRange M).countP fun r : Fin M => decide ((r : ℕ) < M / 2))
      = (List.range M).countP fun v => decide (v < M / 2) := by
    rw [← List.map_coe_finRange M, List.countP_map]
    rfl
  rw [hcast, countP_range_lt M (M / 2) (Nat.div_le_self M 2)]

lemma rowsWith_two_length {M N : ℕ} (h : Fin M → Fin N → ℕ) (hN : 0 < N)
    (hinv : Invariant h) : (rowsWith h 2).length = M - M / 2 := by
  have hp : (fun r : Fin M => decide (∀ c, h r c = 2))
      = fun r : Fin M => decide (∃ c, ¬ h r c = 1) := by
    funext r
    rw [decide_eq_decide]
    constructor
    · intro ha
      exact ⟨⟨0, hN⟩, by have := ha ⟨0, hN⟩; omega⟩
    · rintro ⟨c0, hc0⟩
      intro c
      have h2 : h r c0 = 2 := by
        rcases hinv.2.2 r c0 with h1 | h2
        · omega
        · exact h2
      exact (hinv.1 r c c0).trans h2
  have hsplit : M
      = ((List.finRange M).countP fun r : Fin M => decide (∀ c, h r c = 1))
        + ((List.finRange M).countP fun r : Fin M => decide (∃ c, ¬ h r c = 1)) := by
    simpa using List.length_eq_countP_add_countP
      (fun r : Fin M => decide (∀ c, h r c = 1)) (List.finRange M)
  have h1len : (rowsWith h 1).length
      = (List.finRange M).countP fun r : Fin M => decide (∀ c, h r c = 1) :=
    (List.countP_eq_length_filter _ _).symm
  have h2len : (rowsWith h 2).length
      = (List.finRange M).countP fun r : Fin M => decide (∃ c, ¬ h r c = 1) := by
    rw [rowsWith, ← List.countP_eq_length_filter, hp]
  rw [h2len]
  have hM : (List.finRange M).length = M := List.length_finRange M
  have hcount1 : (List.finRange M).countP
      (fun r : Fin M => decide (∀ c, h r c = 1)) = M / 2 := by
    rw [← h1len]
    exact hinv.2.1
  omega

/-! ### The invariant, trial correctness, and loop success -/

lemma invariant_initHalves (M N : ℕ) (hN : 0 < N) : Invariant (initHalves M N) :=
  ⟨fun _ _ _ => rfl, rowsWith_initHalves M N hN, fun r c => by
    rw [initHalves]
    split
    · exact Or.inl rfl
    · exact Or.inr rfl⟩

lemma invariant_applyPerm {M N : ℕ} (σ : Equiv.Perm (Fin M))
    (h : Fin M → Fin N → ℕ) (hinv : Invariant h) : Invariant (applyPerm σ h) :=
  ⟨fun r c c2 => hinv.1 (σ r) c c2,
    (rowsWith_applyPerm_length σ h 1).trans hinv.2.1,
    fun r c => hinv.2.2 (σ r) c⟩

lemma maskSelect_length {M N : ℕ} (x : Fin M → Fin N → ℝ)
    (h : Fin M → Fin N → ℕ) (v : ℕ) (hc : ∀ r c c2, h r c = h r c2) :
    (maskSelect x h v).length = (rowsWith h v).length * N := by
  rw [maskSelect_eq_rows x h v hc, length_flatMap_rowChunks]

lemma groupMean_eq {M N : ℕ} (x : Fin M → Fin N → ℝ) (h : Fin M → Fin N → ℕ)
    (v k : ℕ) (hc : ∀ r c c2, h r c = h r c2)
    (hlen : (rowsWith h v).length = k) (c : Fin N) :
    (∑ r : Fin k, matOfList (maskSelect x h v) N r c) / (k : ℝ)
      = groupMeans x h v c := by
  subst hlen
  rw [groupMeans]
  congr 1
  rw [sum_map_eq_fin_sum]
  refine Finset.sum_congr rfl fun r _ => ?_
  rw [maskSelect_eq_rows x h v hc,
    matOfList_flatMap x (rowsWith h v) r c r.isLt c.isLt]

lemma trialSample_eq {M N : ℕ} (x : Fin M → Fin N → ℝ) (mode : String)
    (h : Fin M → Fin N → ℕ) (hN : 0 < N) (hinv : Invariant h) :
    trialSample x mode h =
      some (if mode = "correlation" then trialPearson x h
        else if mode = "spearman-brown" then
          2 * trialPearson x h / (1 + trialPearson x h)
        else 0) := by
  rw [trialSample, if_pos]
  constructor
  · rw [maskSelect_length x h 1 hinv.1, hinv.2.1]
  · rw [maskSelect_length x h 2 hinv.1, rowsWith_two_length h hN hinv]

lemma trialPearson_eq {M N : ℕ} (x : Fin M → Fin N → ℝ)
    (h : Fin M → Fin N → ℕ) (hN : 0 < N) (hinv : Invariant h) :
    trialPearson x h = pearson (groupMeans x h 1) (groupMeans x h 2) := by
  rw [trialPearson]
  congr 1
  · funext c
    exact groupMean_eq x h 1 (M / 2) hinv.1 hinv.2.1 c
  · funext c
    exact groupMean_eq x h 2 (M - M / 2) hinv.1 (rowsWith_two_length h hN hinv) c

lemma runTrials_all_isSome {M N : ℕ} (x : Fin M → Fin N → ℝ) (mode : String)
    (perms : ℕ → Equiv.Perm (Fin M)) (hN : 0 < N) :
    ∀ (k i : ℕ) (h : Fin M → Fin N → ℕ), Invariant h →
      (runTrials x mode perms k i h).all Option.isSome = true := by
  intro k
  induction k with
  | zero => intro i h _; rfl
  | succ k ih =>
    intro i h hinv
    have hinv2 := invariant_applyPerm (perms i) h hinv
    rw [runTrials]
    rw [List.all_cons, trialSample_eq x mode _ hN hinv2, ih (i + 1) _ hinv2]
    rfl

lemma runTrials_length {M N : ℕ} (x : Fin M → Fin N → ℝ) (mode : String)
    (perms : ℕ → Equiv.Perm (Fin M)) :
    ∀ (k i : ℕ) (h : Fin M → Fin N → ℕ),
      (runTrials x mode perms k i h).length = k := by
  intro k
  induction k with
  | zero => intro i h; rfl
  | succ k ih =>
    intro i h
    rw [runTrials, List.length_cons, ih]

lemma reduceOption_length_of_all {α : Type} :
    ∀ l : List (Option α), l.all Option.isSome = true →
      l.reduceOption.length = l.length := by
  intro l
  induction l with
  | nil => intro _; rfl
  | cons o l ih =>
    intro hall
    rw [List.all_cons, Bool.and_eq_true] at hall
    match o, hall.1 with
    | some a, _ =>
      rw [List.reduceOption_cons_of_some, List.length_cons, List.length_cons,
        ih hall.2]

/-- Core success lemma: on a valid call the loop never fails and the
function returns the mean and the SEM of the trial samples. -/
lemma split_half_ok {M N : ℕ} (x : Fin M → Fin N → ℝ) (n_splits : ℤ)
    (mode : String) (perms : ℕ → Equiv.Perm (Fin M)) (hn : 1 ≤ n_splits)
    (hmode : mode = "correlation" ∨ mode = "spearman-brown") (hN : 0 < N) :
    split_half x n_splits mode perms =
      Except.ok (listMean (sampleVals x mode perms n_splits.toNat),
        listPStd (sampleVals x mode perms n_splits.toNat)
          / Real.sqrt (n_splits.toNat : ℝ))
      ∧ (sampleVals x mode perms n_splits.toNat).length = n_splits.toNat := by
  have hall := runTrials_all_isSome x mode perms hN n_splits.toNat 0
    (initHalves M N) (invariant_initHalves M N hN)
  constructor
  · rw [split_half, if_neg (by omega), if_neg (not_not.mpr hmode), if_pos hall]
    rfl
  · rw [sampleVals, reduceOption_length_of_all _ hall, runTrials_length]

/-! ### The same machinery for the checked (NaN-faithful) pipeline -/

lemma trialSampleChecked_eq {M N : ℕ} (x : Fin M → Fin N → ℝ) (mode : String)
    (h : Fin M → Fin N → ℕ) (hN : 0 < N) (hinv : Invariant h) :
    trialSampleChecked x mode h =
      some (if mode = "correlation" then trialPearsonChecked x h
        else if mode = "spearman-brown" then sbChecked (trialPearsonChecked x h)
        else some 0) := by
  rw [trialSampleChecked, if_pos]
  constructor
  · rw [maskSelect_length x h 1 hinv.1, hinv.2.1]
  · rw [maskSelect_length x h 2 hinv.1, rowsWith_two_length h hN hinv]

lemma trialPearsonChecked_eq {M N : ℕ} (x : Fin M → Fin N → ℝ)
    (h : Fin M → Fin N → ℕ) (hN : 0 < N) (hinv : Invariant h) :
    trialPearsonChecked x h
      = pearsonChecked (groupMeans x h 1) (groupMeans x h 2) := by
  rw [trialPearsonChecked]
  congr 1
  · funext c
    exact groupMean_eq x h 1 (M / 2) hinv.1 hinv.2.1 c
  · funext c
    exact groupMean_eq x h 2 (M - M / 2) hinv.1 (rowsWith_two_length h hN hinv) c

lemma runTrialsChecked_all_isSome {M N : ℕ} (x : Fin M → Fin N → ℝ)
    (mode : String) (perms : ℕ → Equiv.Perm (Fin M)) (hN : 0 < N) :
    ∀ (k i : ℕ) (h : Fin M → Fin N → ℕ), Invariant h →
      (runTrialsChecked x mode perms k i h).all Option.isSome = true := by
  intro k
  induction k with
  | zero => intro i h _; rfl
  | succ k ih =>
    intro i h hinv
    have hinv2 := invariant_applyPerm (perms i) h hinv
    rw [runTrialsChecked]
    rw [List.all_cons, trialSampleChecked_eq x mode _ hN hinv2, ih (i + 1) _ hinv2]
    rfl

lemma runTrialsChecked_length {M N : ℕ} (x : Fin M → Fin N → ℝ) (mode : String)
    (perms : ℕ → Equiv.Perm (Fin M)) :
    ∀ (k i : ℕ) (h : Fin M → Fin N → ℕ),
      (runTrialsChecked x mode perms k i h).length = k := by
  intro k
  induction k with
  | zero => intro i h; rfl
  | succ k ih =>
    intro i h
    rw [runTrialsChecked, List.length_cons, ih]

lemma reduceOption_all_isSome_of_not_mem {α : Type}
    (l : List (Option (Option α))) (hnm : (some (none : Option α)) ∉ l) :
    l.reduceOption.all Option.isSome = true := by
  rw [List.all_eq_true]
  intro v hv
  have hmem : some v ∈ l := List.reduceOption_mem_iff.mp hv
  match v with
  | none => exact absurd hmem hnm
  | some a => rfl

/-- Success of the checked pipeline: if validation passes and no trial
degenerates to a non-finite sample, the call returns finite mean and
SEM of exactly `n_splits` samples. -/
lemma splitHalfChecked_ok {M N : ℕ} (x : Fin M → Fin N → ℝ) (n_splits : ℤ)
    (mode : String) (perms : ℕ → Equiv.Perm (Fin M)) (hn : 1 ≤ n_splits)
    (hmode : mode = "correlation" ∨ mode = "spearman-brown") (hN : 0 < N)
    (hnd : (some (none : Option ℝ)) ∉
      runTrialsChecked x mode perms n_splits.toNat 0 (initHalves M N)) :
    splitHalfChecked x n_splits mode perms =
      Except.ok (some (listMean (checkedVals x mode perms n_splits.toNat)),
        some (listPStd (checkedVals x mode perms n_splits.toNat)
          / Real.sqrt (n_splits.toNat : ℝ)))
      ∧ (checkedVals x mode perms n_splits.toNat).length = n_splits.toNat := by
  have hall := runTrialsChecked_all_isSome x mode perms hN n_splits.toNat 0
    (initHalves M N) (invariant_initHalves M N hN)
  have hvals := reduceOption_all_isSome_of_not_mem _ hnd
  constructor
  · rw [splitHalfChecked, if_neg (by omega), if_neg (not_not.mpr hmode),
      if_pos hall, if_pos hvals]
    rfl
  · rw [checkedVals, reduceOption_length_of_all _ hvals,
      reduceOption_length_of_all _ hall, runTrialsChecked_length]


/-- A concrete 2×2 dataset whose two half-mean vectors are perfectly
anticorrelated; used in witnesses and in the divisor analysis. -/
noncomputable def xDemo : Fin 2 → Fin 2 → ℝ := ![![0, 1], ![1, 0]]

/-- Claim C2: each trial's sample comes from the Pearson correlation `r`
of the per-subject means (over rows) of the two row groups of the trial's
partition: the sample is `r` under 'correlation' and `2*r/(1+r)` under
'spearman-brown'. -/
theorem c2_trial_sample {M N : ℕ} (x : Fin M → Fin N → ℝ)
    (h : Fin M → Fin N → ℕ) (hN : 0 < N) (hinv : Invariant h) :
    trialSample x "correlation" h =
      some (pearson (groupMeans x h 1) (groupMeans x h 2)) ∧
    trialSample x "spearman-brown" h =
      some (2 * pearson (groupMeans x h 1) (groupMeans x h 2)
        / (1 + pearson (groupMeans x h 1) (groupMeans x h 2))) := by
  have hp := trialPearson_eq x h hN hinv
  constructor
  · rw [trialSample_eq x "correlation" h hN hinv, if_pos rfl, hp]
  · rw [trialSample_eq x "spearman-brown" h hN hinv, if_neg (by decide),
      if_pos rfl, hp]

/-- Witness for C2: the initial label matrix of a 2×2 call. -/
theorem c2_trial_sample_witness :
    0 < 2 ∧ Invariant (initHalves 2 2) ∧
      (trialSample xDemo "correlation" (initHalves 2 2) =
        some (pearson (groupMeans xDemo (initHalves 2 2) 1)
          (groupMeans xDemo (initHalves 2 2) 2)) ∧
      trialSample xDemo "spearman-brown" (initHalves 2 2) =
        some (2 * pearson (groupMeans xDemo (initHalves 2 2) 1)
            (groupMeans xDemo (initHalves 2 2) 2)
          / (1 + pearson (groupMeans xDemo (initHalves 2 2) 1)
            (groupMeans xDemo (initHalves 2 2) 2)))) :=
  ⟨by norm_num, invariant_initHalves 2 2 (by norm_num),
    c2_trial_sample xDemo (initHalves 2 2) (by norm_num)
      (invariant_initHalves 2 2 (by norm_num))⟩

/-- Claim C4: every trial's partition puts exactly `M // 2` rows in half 1
and `M - M // 2` rows in half 2, the same row-label assignment applies to
every subject column, group formation selects exactly the rows carrying
each label in their current order with aligned subject columns, and the
invariant is preserved by every per-trial shuffle. -/
theorem c4_partition_invariant {M N : ℕ} (x : Fin M → Fin N → ℝ)
    (σ : Equiv.Perm (Fin M)) (h : Fin M → Fin N → ℕ) (hN : 0 < N) :
    Invariant (initHalves M N) ∧
      (Invariant h → Invariant (applyPerm σ h)) ∧
      (Invariant h →
        (rowsWith h 1).length = M / 2 ∧
        (rowsWith h 2).length = M - M / 2 ∧
        (maskSelect x h 1).length = M / 2 * N ∧
        (maskSelect x h 2).length = (M - M / 2) * N ∧
        (∀ (i : ℕ) (c : Fin N) (hi : i < (rowsWith h 1).length),
          matOfList (maskSelect x h 1) N i c = x ((rowsWith h 1).get ⟨i, hi⟩) c) ∧
        (∀ (i : ℕ) (c : Fin N) (hi : i < (rowsWith h 2).length),
          matOfList (maskSelect x h 2) N i c = x ((rowsWith h 2).get ⟨i, hi⟩) c)) := by
  refine ⟨invariant_initHalves M N hN, invariant_applyPerm σ h, fun hinv => ?_⟩
  have h2len := rowsWith_two_length h hN hinv
  refine ⟨hinv.2.1, h2len, ?_, ?_, ?_, ?_⟩
  · rw [maskSelect_length x h 1 hinv.1, hinv.2.1]
  · rw [maskSelect_length x h 2 hinv.1, h2len]
  · intro i c hi
    rw [maskSelect_eq_rows x h 1 hinv.1,
      matOfList_flatMap x (rowsWith h 1) i c hi c.isLt]
  · intro i c hi
    rw [maskSelect_eq_rows x h 2 hinv.1,
      matOfList_flatMap x (rowsWith h 2) i c hi c.isLt]

/-- Witness for C4 on a concrete 2×2 call with the identity shuffle. -/
theorem c4_partition_invariant_witness :
    0 < 2 ∧
      (Invariant (initHalves 2 2) ∧
        (Invariant (initHalves 2 2) →
          Invariant (applyPerm 1 (initHalves 2 2))) ∧
        (Invariant (initHalves 2 2) →
          (rowsWith (initHalves 2 2) 1).length = 2 / 2 ∧
          (rowsWith (initHalves 2 2) 2).length = 2 - 2 / 2 ∧
          (maskSelect xDemo (initHalves 2 2) 1).length = 2 / 2 * 2 ∧
          (maskSelect xDemo (initHalves 2 2) 2).length = (2 - 2 / 2) * 2 ∧
          (∀ (i : ℕ) (c : Fin 2) (hi : i < (rowsWith (initHalves 2 2) 1).length),
            matOfList (maskSelect xDemo (initHalves 2 2) 1) 2 i c
              = xDemo ((rowsWith (initHalves 2 2) 1).get ⟨i, hi⟩) c) ∧
          (∀ (i : ℕ) (c : Fin 2) (hi : i < (rowsWith (initHalves 2 2) 2).length),
            matOfList (maskSelect xDemo (initHalves 2 2) 2) 2 i c
              = xDemo ((rowsWith (initHalves 2 2) 2).get ⟨i, hi⟩) c))) :=
  ⟨by norm_num, c4_partition_invariant xDemo 1 (initHalves 2 2) (by norm_num)⟩

/-- Claim C3: a valid call returns the pair whose first component is the
arithmetic mean of the `n_splits` trial samples and whose second is their
population standard deviation (divisor `n_splits`) over `sqrt(n_splits)`. -/
theorem c3_mean_and_sem {M N : ℕ} (x : Fin M → Fin N → ℝ) (n_splits : ℤ)
    (mode : String) (perms : ℕ → Equiv.Perm (Fin M)) (hn : 1 ≤ n_splits)
    (hmode : mode = "correlation" ∨ mode = "spearman-brown") (hN : 0 < N) :
    split_half x n_splits mode perms =
      Except.ok (listMean (sampleVals x mode perms n_splits.toNat),
        listPStd (sampleVals x mode perms n_splits.toNat)
          / Real.sqrt (n_splits.toNat : ℝ))
      ∧ (sampleVals x mode perms n_splits.toNat).length = n_splits.toNat :=
  split_half_ok x n_splits mode perms hn hmode hN

/-- Witness for C3: a 2×2 call with one trial. -/
theorem c3_mean_and_sem_witness :
    (1 : ℤ) ≤ 1 ∧ 0 < 2 ∧
      (split_half xDemo 1 "correlation" (fun _ => 1) =
        Except.ok (listMean (sampleVals xDemo "correlation" (fun _ => 1) (1 : ℤ).toNat),
          listPStd (sampleVals xDemo "correlation" (fun _ => 1) (1 : ℤ).toNat)
            / Real.sqrt (((1 : ℤ).toNat : ℝ)))
        ∧ (sampleVals xDemo "correlation" (fun _ => 1) (1 : ℤ).toNat).length
            = (1 : ℤ).toNat) :=
  ⟨by norm_num, by norm_num,
    c3_mean_and_sem xDemo 1 "correlation" (fun _ => 1) (by norm_num)
      (Or.inl rfl) (by norm_num)⟩

/-- Claim C5: `split_half` fails with an error whenever `n_splits < 1` or
the mode is unrecognized, before any computation, returning no partial
result. -/
theorem c5_validation {M N : ℕ} (x : Fin M → Fin N → ℝ) (n_splits : ℤ)
    (mode : String) (perms : ℕ → Equiv.Perm (Fin M))
    (h : n_splits < 1 ∨ ¬ (mode = "correlation" ∨ mode = "spearman-brown")) :
    ∃ e, split_half x n_splits mode perms = Except.error e := by
  rcases h with h | h
  · exact ⟨_, by rw [split_half, if_pos h]⟩
  · by_cases hn : n_splits < 1
    · exact ⟨_, by rw [split_half, if_pos hn]⟩
    · exact ⟨_, by rw [split_half, if_neg hn, if_pos h]⟩

/-- Witness for C5: `n_splits = 0` errors out. -/
theorem c5_validation_witness :
    ∃ e, split_half xDemo 0 "correlation" (fun _ => 1) = Except.error e :=
  c5_validation xDemo 0 "correlation" (fun _ => 1) (Or.inl (by norm_num))

/-! ### Bounds on the correlation-mode samples -/

lemma pearson_bounds {n : ℕ} (a b : Fin n → ℝ) :
    -1 ≤ pearson a b ∧ pearson a b ≤ 1 := by
  simp only [pearson]
  set am := (∑ i, a i) / (n : ℝ) with ham
  set bm := (∑ i, b i) / (n : ℝ) with hbm
  set num := ∑ i, (a i - am) * (b i - bm) with hnum
  set D := (∑ i, (a i - am) ^ 2) * (∑ i, (b i - bm) ^ 2) with hD
  have key : |num| ≤ Real.sqrt D := by
    rw [← Real.sqrt_sq_eq_abs]
    apply Real.sqrt_le_sqrt
    rw [hnum, hD]
    exact Finset.sum_mul_sq_le_sq_mul_sq Finset.univ _ _
  have habs : |num / Real.sqrt D| ≤ 1 := by
    rw [abs_div, abs_of_nonneg (Real.sqrt_nonneg D)]
    exact div_le_one_of_le key (Real.sqrt_nonneg D)
  exact abs_le.mp habs

lemma pearsonChecked_bounds {n : ℕ} (a b : Fin n → ℝ) (s : ℝ)
    (hs : pearsonChecked a b = some s) : -1 ≤ s ∧ s ≤ 1 := by
  simp only [pearsonChecked] at hs
  by_cases hD : (∑ i, (a i - (∑ i, a i) / (n : ℝ)) ^ 2)
      * (∑ i, (b i - (∑ i, b i) / (n : ℝ)) ^ 2) = 0
  · rw [if_pos hD] at hs
    exact absurd hs (by simp)
  · rw [if_neg hD] at hs
    obtain rfl : pearson a b = s := Option.some.inj hs
    exact pearson_bounds a b

lemma mem_checkedVals_correlation {M N : ℕ} (x : Fin M → Fin N → ℝ)
    (perms : ℕ → Equiv.Perm (Fin M)) :
    ∀ (k i : ℕ) (h : Fin M → Fin N → ℕ) (s : ℝ),
      s ∈ ((runTrialsChecked x "correlation" perms k i h).reduceOption).reduceOption →
      ∃ h2, trialPearsonChecked x h2 = some s := by
  intro k
  induction k with
  | zero =>
    intro i h s hs
    simp [runTrialsChecked, List.reduceOption_nil] at hs
  | succ k ih =>
    intro i h s hs
    simp only [runTrialsChecked, trialSampleChecked] at hs
    by_cases hc : (maskSelect x (applyPerm (perms i) h) 1).length = M / 2 * N ∧
        (maskSelect x (applyPerm (perms i) h) 2).length = (M - M / 2) * N
    · rw [if_pos hc, if_true, List.reduceOption_cons_of_some] at hs
      rcases hv : trialPearsonChecked x (applyPerm (perms i) h) with _ | v
      · rw [hv, List.reduceOption_cons_of_none] at hs
        exact ih (i + 1) _ s hs
      · rw [hv, List.reduceOption_cons_of_some] at hs
        rcases List.mem_cons.mp hs with h1 | h1
        · exact ⟨_, by rw [hv, h1]⟩
        · exact ih (i + 1) _ s h1
    · rw [if_neg hc, List.reduceOption_cons_of_none] at hs
      exact ih (i + 1) _ s hs

lemma listMean_bounds (l : List ℝ) (hne : l.length ≠ 0)
    (hb : ∀ s ∈ l, -1 ≤ s ∧ s ≤ 1) : -1 ≤ listMean l ∧ listMean l ≤ 1 := by
  have hpos : 0 < (l.length : ℝ) := by
    have : 0 < l.length := Nat.pos_of_ne_zero hne
    exact_mod_cast this
  constructor
  · rw [listMean, le_div_iff hpos]
    have hlow := List.card_nsmul_le_sum l (-1 : ℝ) fun s hs => (hb s hs).1
    rw [nsmul_eq_mul] at hlow
    linarith
  · rw [listMean, div_le_one hpos]
    have hup := List.sum_le_card_nsmul l (1 : ℝ) fun s hs => (hb s hs).2
    rw [nsmul_eq_mul] at hup
    linarith

/-- Claim C10: the Spearman-Brown branch divides by `1 + r` with no guard:
on the valid 2×2 input `xDemo` the trial's Pearson coefficient is exactly
-1, the divisor `1 + r` is 0, and the code still stores `2*r/(1+r)`. -/
theorem c10_unguarded_divisor :
    trialPearson xDemo (initHalves 2 2) = -1 ∧
    1 + trialPearson xDemo (initHalves 2 2) = 0 ∧
    trialSample xDemo "spearman-brown" (initHalves 2 2) =
      some (2 * trialPearson xDemo (initHalves 2 2)
        / (1 + trialPearson xDemo (initHalves 2 2))) := by
  have hinv : Invariant (initHalves 2 2) := invariant_initHalves 2 2 (by norm_num)
  have hp : trialPearson xDemo (initHalves 2 2) = -1 := by
    rw [trialPearson_eq xDemo (initHalves 2 2) (by norm_num) hinv]
    have hr1 : rowsWith (initHalves 2 2) 1 = [0] := by decide
    have hr2 : rowsWith (initHalves 2 2) 2 = [1] := by decide
    simp only [pearson, groupMeans, hr1, hr2, List.map_cons, List.map_nil,
      List.sum_cons, List.sum_nil, List.length_cons, List.length_nil,
      Fin.sum_univ_two]
    norm_num [xDemo]
    rw [show (4 : ℝ) = 2 ^ 2 by norm_num,
      Real.sqrt_sq (by norm_num : (0 : ℝ) ≤ 2)]
    norm_num
  refine ⟨hp, by rw [hp]; norm_num, ?_⟩
  rw [trialSample_eq xDemo "spearman-brown" _ (by norm_num) hinv,
    if_neg (by decide), if_pos rfl]

/-! ### Concrete evaluations of the checked pipeline -/

lemma applyPerm_one {M N : ℕ} (h : Fin M → Fin N → ℕ) : applyPerm 1 h = h := by
  funext r c
  rw [applyPerm, Equiv.Perm.one_apply]

lemma runTrialsChecked_one {M N : ℕ} (x : Fin M → Fin N → ℝ) (mode : String)
    (perms : ℕ → Equiv.Perm (Fin M)) (i : ℕ) (h : Fin M → Fin N → ℕ) :
    runTrialsChecked x mode perms 1 i h
      = [trialSampleChecked x mode (applyPerm (perms i) h)] := rfl

lemma xDemo_gm1 : groupMeans xDemo (initHalves 2 2) 1 = fun c => xDemo 0 c := by
  have hr1 : rowsWith (initHalves 2 2) 1 = [0] := by decide
  funext c
  simp [groupMeans, hr1]

lemma xDemo_gm2 : groupMeans xDemo (initHalves 2 2) 2 = fun c => xDemo 1 c := by
  have hr2 : rowsWith (initHalves 2 2) 2 = [1] := by decide
  funext c
  simp [groupMeans, hr2]

lemma xDemo_pearson : pearson (fun c => xDemo 0 c) (fun c => xDemo 1 c) = -1 := by
  simp only [pearson, Fin.sum_univ_two]
  norm_num [xDemo]
  rw [show (4 : ℝ) = 2 ^ 2 by norm_num,
    Real.sqrt_sq (by norm_num : (0 : ℝ) ≤ 2)]
  norm_num

lemma xDemo_pearsonChecked :
    pearsonChecked (fun c => xDemo 0 c) (fun c => xDemo 1 c) = some (-1) := by
  simp only [pearsonChecked]
  rw [if_neg, xDemo_pearson]
  norm_num [Fin.sum_univ_two, xDemo]

lemma xDemo_trialPearsonChecked :
    trialPearsonChecked xDemo (initHalves 2 2) = some (-1) := by
  rw [trialPearsonChecked_eq xDemo (initHalves 2 2) (by norm_num)
      (invariant_initHalves 2 2 (by norm_num)), xDemo_gm1, xDemo_gm2,
    xDemo_pearsonChecked]

lemma xDemo_samples_sb :
    runTrialsChecked xDemo "spearman-brown" (fun _ => (1 : Equiv.Perm (Fin 2)))
      1 0 (initHalves 2 2) = [some none] := by
  rw [runTrialsChecked_one, applyPerm_one,
    trialSampleChecked_eq xDemo "spearman-brown" (initHalves 2 2) (by norm_num)
      (invariant_initHalves 2 2 (by norm_num)),
    if_neg (by decide), if_pos rfl, xDemo_trialPearsonChecked]
  have hsb : sbChecked (some (-1)) = none := by
    simp only [sbChecked]
    rw [if_pos]
    norm_num
  rw [hsb]

lemma xDemo_samples_corr :
    runTrialsChecked xDemo "correlation" (fun _ => (1 : Equiv.Perm (Fin 2)))
      1 0 (initHalves 2 2) = [some (some (-1))] := by
  rw [runTrialsChecked_one, applyPerm_one,
    trialSampleChecked_eq xDemo "correlation" (initHalves 2 2) (by norm_num)
      (invariant_initHalves 2 2 (by norm_num)),
    if_pos rfl, xDemo_trialPearsonChecked]

lemma xConst_gm1 : groupMeans xConst (initHalves 2 2) 1 = fun _ => (0 : ℝ) := by
  have hr1 : rowsWith (initHalves 2 2) 1 = [0] := by decide
  funext c
  simp [groupMeans, hr1, xConst]

lemma xConst_gm2 : groupMeans xConst (initHalves 2 2) 2 = fun _ => (0 : ℝ) := by
  have hr2 : rowsWith (initHalves 2 2) 2 = [1] := by decide
  funext c
  simp [groupMeans, hr2, xConst]

lemma xConst_pearsonChecked :
    pearsonChecked (fun _ : Fin 2 => (0 : ℝ)) (fun _ : Fin 2 => (0 : ℝ))
      = none := by
  simp only [pearsonChecked]
  rw [if_pos]
  norm_num [Fin.sum_univ_two]

lemma xConst_trialPearsonChecked :
    trialPearsonChecked xConst (initHalves 2 2) = none := by
  rw [trialPearsonChecked_eq xConst (initHalves 2 2) (by norm_num)
      (invariant_initHalves 2 2 (by norm_num)), xConst_gm1, xConst_gm2,
    xConst_pearsonChecked]

lemma xConst_samples_corr :
    runTrialsChecked xConst "correlation" (fun _ => (1 : Equiv.Perm (Fin 2)))
      1 0 (initHalves 2 2) = [some none] := by
  rw [runTrialsChecked_one, applyPerm_one,
    trialSampleChecked_eq xConst "correlation" (initHalves 2 2) (by norm_num)
      (invariant_initHalves 2 2 (by norm_num)),
    if_pos rfl, xConst_trialPearsonChecked]

/-! ### C8 and C9, corrected against the NaN-faithful pipeline -/

/-- Counterexample for C8 as stated: at the valid input `xDemo`
(M = N = 2) with mode 'spearman-brown' and one split, the trial's
coefficient is -1, the stored sample is the non-finite `2*(-1)/0`, and
`numpy.std` of it is NaN: the call returns no real sem at all, in
particular none satisfying `sem >= 0`. -/
theorem c8_sem_nan_counterexample :
    splitHalfChecked xDemo 1 "spearman-brown" (fun _ => 1)
        = Except.ok (none, none) ∧
    ¬ ∃ r sem : ℝ, splitHalfChecked xDemo 1 "spearman-brown" (fun _ => 1)
        = Except.ok (some r, some sem) ∧ 0 ≤ sem := by
  have hs : runTrialsChecked xDemo "spearman-brown"
      (fun _ => (1 : Equiv.Perm (Fin 2))) (1 : ℤ).toNat 0 (initHalves 2 2)
      = [some none] := xDemo_samples_sb
  have hmain : splitHalfChecked xDemo 1 "spearman-brown" (fun _ => 1)
      = Except.ok (none, none) := by
    simp only [splitHalfChecked]
    rw [hs]
    simp [List.reduceOption_cons_of_some]
  refine ⟨hmain, ?_⟩
  rintro ⟨r, sem, heq, -⟩
  rw [hmain] at heq
  simp at heq

/-- Claim C8 as amended: on every valid call in which no trial sample
degenerates to a non-finite float (every trial's Pearson coefficient is
defined and, under 'spearman-brown', no trial's coefficient is -1), the
call succeeds with a real sem and `sem >= 0`. -/
theorem c8_sem_nonneg_amended {M N : ℕ} (x : Fin M → Fin N → ℝ)
    (n_splits : ℤ) (mode : String) (perms : ℕ → Equiv.Perm (Fin M))
    (hM : 2 ≤ M) (hN : 2 ≤ N) (hn : 1 ≤ n_splits)
    (hmode : mode = "correlation" ∨ mode = "spearman-brown")
    (hnd : (some (none : Option ℝ)) ∉
      runTrialsChecked x mode perms n_splits.toNat 0 (initHalves M N)) :
    ∃ r sem : ℝ, splitHalfChecked x n_splits mode perms
        = Except.ok (some r, some sem) ∧ 0 ≤ sem := by
  obtain ⟨hok, -⟩ :=
    splitHalfChecked_ok x n_splits mode perms hn hmode (by omega) hnd
  exact ⟨_, _, hok, div_nonneg (Real.sqrt_nonneg _) (Real.sqrt_nonneg _)⟩

/-- Witness for the amended C8: at `xDemo` under 'correlation' the single
trial's coefficient is the finite -1, so no sample degenerates. -/
theorem c8_sem_nonneg_amended_witness :
    2 ≤ 2 ∧ (1 : ℤ) ≤ 1 ∧
      (some (none : Option ℝ)) ∉
        runTrialsChecked xDemo "correlation" (fun _ => 1) (1 : ℤ).toNat 0
          (initHalves 2 2) ∧
      ∃ r sem : ℝ, splitHalfChecked xDemo 1 "correlation" (fun _ => 1)
          = Except.ok (some r, some sem) ∧ 0 ≤ sem := by
  have hnd : (some (none : Option ℝ)) ∉
      runTrialsChecked xDemo "correlation" (fun _ => (1 : Equiv.Perm (Fin 2)))
        (1 : ℤ).toNat 0 (initHalves 2 2) := by
    have hs : runTrialsChecked xDemo "correlation"
        (fun _ => (1 : Equiv.Perm (Fin 2))) (1 : ℤ).toNat 0 (initHalves 2 2)
        = [some (some (-1))] := xDemo_samples_corr
    rw [hs]
    simp
  exact ⟨by norm_num, by norm_num, hnd,
    c8_sem_nonneg_amended xDemo 1 "correlation" (fun _ => 1) (by norm_num)
      (by norm_num) (by norm_num) (Or.inl rfl) hnd⟩

/-- Counterexample for C9 as stated: at the valid constant matrix
`xConst` (M = N = 2) both half-mean vectors have zero variance, so
`scipy.stats.pearsonr` returns NaN: the trial correlation and the
returned r are not reals in [-1, 1] — the call returns no real r at
all. -/
theorem c9_nan_counterexample :
    splitHalfChecked xConst 1 "correlation" (fun _ => 1)
        = Except.ok (none, none) ∧
    ¬ ∃ r sem : ℝ, splitHalfChecked xConst 1 "correlation" (fun _ => 1)
        = Except.ok (some r, some sem) ∧ -1 ≤ r ∧ r ≤ 1 := by
  have hs : runTrialsChecked xConst "correlation"
      (fun _ => (1 : Equiv.Perm (Fin 2))) (1 : ℤ).toNat 0 (initHalves 2 2)
      = [some none] := xConst_samples_corr
  have hmain : splitHalfChecked xConst 1 "correlation" (fun _ => 1)
      = Except.ok (none, none) := by
    simp only [splitHalfChecked]
    rw [hs]
    simp [List.reduceOption_cons_of_some]
  refine ⟨hmain, ?_⟩
  rintro ⟨r, sem, heq, -⟩
  rw [hmain] at heq
  simp at heq

/-- Claim C9 as amended: on every valid 'correlation'-mode call in which
every trial's Pearson coefficient is defined (no zero-variance half-mean
vector), each trial's coefficient lies in [-1, 1] and the returned r,
their mean, lies in [-1, 1]. -/
theorem c9_correlation_bounded_amended {M N : ℕ} (x : Fin M → Fin N → ℝ)
    (n_splits : ℤ) (perms : ℕ → Equiv.Perm (Fin M)) (hM : 2 ≤ M) (hN : 2 ≤ N)
    (hn : 1 ≤ n_splits)
    (hnd : (some (none : Option ℝ)) ∉
      runTrialsChecked x "correlation" perms n_splits.toNat 0 (initHalves M N)) :
    ∃ r sem : ℝ, splitHalfChecked x n_splits "correlation" perms
        = Except.ok (some r, some sem) ∧
      (∀ s ∈ checkedVals x "correlation" perms n_splits.toNat,
        -1 ≤ s ∧ s ≤ 1) ∧
      -1 ≤ r ∧ r ≤ 1 := by
  obtain ⟨hok, hlen⟩ :=
    splitHalfChecked_ok x n_splits "correlation" perms hn (Or.inl rfl)
      (by omega) hnd
  have hb : ∀ s ∈ checkedVals x "correlation" perms n_splits.toNat,
      -1 ≤ s ∧ s ≤ 1 := by
    intro s hs
    obtain ⟨h2, hv⟩ := mem_checkedVals_correlation x perms n_splits.toNat 0
      (initHalves M N) s hs
    exact pearsonChecked_bounds _ _ s hv
  have hmean := listMean_bounds _ (by omega) hb
  exact ⟨_, _, hok, hb, hmean.1, hmean.2⟩

/-- Witness for the amended C9 at `xDemo` under 'correlation', where the
single trial's coefficient is the finite -1. -/
theorem c9_correlation_bounded_amended_witness :
    2 ≤ 2 ∧ (1 : ℤ) ≤ 1 ∧
      (some (none : Option ℝ)) ∉
        runTrialsChecked xDemo "correlation" (fun _ => 1) (1 : ℤ).toNat 0
          (initHalves 2 2) ∧
      ∃ r sem : ℝ, splitHalfChecked xDemo 1 "correlation" (fun _ => 1)
          = Except.ok (some r, some sem) ∧
        (∀ s ∈ checkedVals xDemo "correlation" (fun _ => 1) (1 : ℤ).toNat,
          -1 ≤ s ∧ s ≤ 1) ∧
        -1 ≤ r ∧ r ≤ 1 := by
  have hnd : (some (none : Option ℝ)) ∉
      runTrialsChecked xDemo "correlation" (fun _ => (1 : Equiv.Perm (Fin 2)))
        (1 : ℤ).toNat 0 (initHalves 2 2) := by
    have hs : runTrialsChecked xDemo "correlation"
        (fun _ => (1 : Equiv.Perm (Fin 2))) (1 : ℤ).toNat 0 (initHalves 2 2)
        = [some (some (-1))] := xDemo_samples_corr
    rw [hs]
    simp
  exact ⟨by norm_num, by norm_num, hnd,
    c9_correlation_bounded_amended xDemo 1 (fun _ => 1) (by norm_num)
      (by norm_num) (by norm_num) hnd⟩

end Reliability
